import Mathlib

/-!
# Verification of the myrpc core against its specification

Shallow embedding of the myrpc RPC framework (Go) in Lean 4, with theorems
settling the specification claims about the client fail-mode engine
(`client/client.go`), the server registry, context pool, response writing and
per-connection loop (`server/server.go`, `server/server_context.go`), and the
colfer `Header` binary codec.

Machine integers are modelled as `Nat` with explicit `% 2^w` where the Go code
truncates; Go strings and byte slices are modelled as `String` or `List Nat`
(byte values); fallible operations return `Option`/`Except`; concurrency
(channel receives) is modelled by an explicit arrival list.
-/

namespace Myrpc

/-! ## Client engine (client/client.go)

`FailMode` mirrors the five-valued enumeration.  An `Invoker` is abstracted by
a `Nat` identity; the result of one invoker call is an `MCall` (the fields of
the Go `Call` that matter here: the reply value and the error).  The selector
and the invokers are oracles passed in as functions.
-/

/-- The five client fail modes (`FailMode` constants in client/client.go). -/
inductive FailMode where
  | failover
  | failfast
  | failtry
  | broadcast
  | forking
deriving DecidableEq, Repr

/-- Result of one invoker call, as delivered on the `done` channel: the Go
`Call` restricted to its `Reply` (abstracted to `Nat`) and `Error` fields. -/
structure MCall where
  reply : Nat
  error : Option String
deriving DecidableEq, Repr

/-- The receive loop of `Client.invokerBroadCast` (client/client.go lines
245-255): `l` counts down the invokers; each loop iteration receives the next
`*Call` from the `done` channel (here: the head of the arrival list, `none`
modelling a nil pointer).  A nil call or a call with a non-nil error returns
the error `"some invokers return Error"` immediately; a success overwrites the
reply and decrements `l`.  Receiving on an exhausted arrival list would block
forever; that is modelled by the outer `none`. -/
def broadcastRecv (reply : Nat) : List (Option MCall) → Nat → Option (Option String × Nat)
  | _, 0 => some (none, reply)
  | [], _ + 1 => none
  | c :: rest, l + 1 =>
    match c with
    | none => some (some "some invokers return Error", reply)
    | some call =>
      match call.error with
      | some _ => some (some "some invokers return Error", reply)
      | none => broadcastRecv call.reply rest l

/-- `Client.invokerBroadCast` (client/client.go lines 231-258).  Returns the
list of invokers the call was dispatched to (`invoker.Go` fired once per
invoker, in list order) and the outcome of the receive loop.  An empty
invoker list returns a nil error at once, dispatching nothing. -/
def invokerBroadCast (invokers : List Nat) (reply : Nat) (arrivals : List (Option MCall)) :
    List Nat × Option (Option String × Nat) :=
  if invokers.length = 0 then ([], some (none, reply))
  else (invokers, broadcastRecv reply arrivals invokers.length)

/-- The receive loop of `Client.invokerForking` (client/client.go lines
274-289): the first non-nil call with a nil error sets the reply and returns a
nil error; a nil call breaks out of the loop; a failed call decrements `l`.
Falling out of the loop returns the error `"all invokers return Error"`. -/
def forkingRecv (reply : Nat) : List (Option MCall) → Nat → Option (Option String × Nat)
  | _, 0 => some (some "all invokers return Error", reply)
  | [], _ + 1 => none
  | c :: rest, l + 1 =>
    match c with
    | none => some (some "all invokers return Error", reply)
    | some call =>
      match call.error with
      | none => some (none, call.reply)
      | some _ => forkingRecv reply rest l

/-- `Client.invokerForking` (client/client.go lines 260-290), analogous to
`invokerBroadCast`. -/
def invokerForking (invokers : List Nat) (reply : Nat) (arrivals : List (Option MCall)) :
    List Nat × Option (Option String × Nat) :=
  if invokers.length = 0 then ([], some (none, reply))
  else (invokers, forkingRecv reply arrivals invokers.length)

/-- Observable selector/invoker events of the sequential fail modes. -/
inductive CEvent where
  | select
  | call (invoker : Nat)
  | handleFailed (invoker : Nat)
deriving DecidableEq, Repr

/-- The `Failover` loop of `Client.Call` (client/client.go lines 192-206).
`selRes k` is the `(err, invoker)` pair produced by `selector.Select` on the
k-th loop iteration, `callRes k` the error of `invoker.Call` there.  The loop
`continue`s (keeping the Select error) when Select errs or yields no invoker;
a successful call returns a nil error at once; a failed call logs, fires
`HandleFailed` and continues with the call error. -/
def failoverLoop (selRes : Nat → Option String × Option Nat) (callRes : Nat → Option String) :
    Nat → Nat → Option String → List CEvent → Option String × List CEvent
  | 0, _, err, tr => (err, tr)
  | t + 1, k, _err, tr =>
    match selRes k with
    | (serr, none) => failoverLoop selRes callRes t (k + 1) serr (tr ++ [CEvent.select])
    | (some e, some _) => failoverLoop selRes callRes t (k + 1) (some e) (tr ++ [CEvent.select])
    | (none, some inv) =>
      match callRes k with
      | none => (none, tr ++ [CEvent.select, CEvent.call inv])
      | some e =>
        failoverLoop selRes callRes t (k + 1) (some e)
          (tr ++ [CEvent.select, CEvent.call inv, CEvent.handleFailed inv])
  termination_by t => t

/-- The `Failtry` loop of `Client.Call` (client/client.go lines 208-225): the
current invoker is re-selected only when nil; a failed call fires
`HandleFailed` but keeps using the same invoker. -/
def failtryLoop (selRes : Nat → Option String × Option Nat) (callRes : Nat → Option String) :
    Nat → Nat → Option Nat → Option String → List CEvent → Option String × List CEvent
  | 0, _, _, err, tr => (err, tr)
  | t + 1, k, inv0, err, tr =>
    let sel := match inv0 with
      | none => ((selRes k).2, (selRes k).1, tr ++ [CEvent.select])
      | some i => (some i, err, tr)
    match sel with
    | (none, err1, tr1) => failtryLoop selRes callRes t (k + 1) none err1 tr1
    | (some inv, _, tr1) =>
      match callRes k with
      | none => (none, tr1 ++ [CEvent.call inv])
      | some e =>
        failtryLoop selRes callRes t (k + 1) (some inv) (some e)
          (tr1 ++ [CEvent.call inv, CEvent.handleFailed inv])
  termination_by t => t

/-- The sequential part of `Client.Call` (client/client.go lines 190-228),
reached when the fail mode is neither `Broadcast` nor `Forking` (those return
`invokerBroadCast`/`invokerForking` on lines 183-188).  `err` starts at the
zero value `none`; only `Failover` and `Failtry` have a branch, every other
mode falls through to `return` untouched. -/
def clientCallSeqPart (mode : FailMode) (maxTry : Nat)
    (selRes : Nat → Option String × Option Nat) (callRes : Nat → Option String) :
    Option String × List CEvent :=
  if mode = FailMode.failover then failoverLoop selRes callRes maxTry 0 none []
  else if mode = FailMode.failtry then failtryLoop selRes callRes maxTry 0 none none []
  else (none, [])

/-- C1 (code bug): under `Failfast`, `Client.Call` performs no selector or
invoker interaction at all and returns a nil error: there is no `Failfast`
branch in `Client.Call`, so control falls through to `return` with the zero
`err`.  The claim (one attempt, returning that attempt's error) is the
documented intent; the code does zero attempts. -/
theorem c1_failfast_zero_attempts (maxTry : Nat)
    (selRes : Nat → Option String × Option Nat) (callRes : Nat → Option String) :
    clientCallSeqPart FailMode.failfast maxTry selRes callRes = (none, []) := rfl

/-- The broadcast receive loop, run for as many iterations as there are
arrivals and fed only genuine (non-nil) calls, terminates, and returns a nil
error exactly when every arrival carried a nil error. -/
lemma broadcastRecv_sound (arrivals : List (Option MCall)) (reply : Nat)
    (hsome : ∀ a ∈ arrivals, a ≠ none) :
    ∃ err rep, broadcastRecv reply arrivals arrivals.length = some (err, rep) ∧
      (err = none ↔ ∀ a ∈ arrivals, ∀ c, a = some c → c.error = none) := by
  induction arrivals generalizing reply with
  | nil => exact ⟨none, reply, rfl, by simp⟩
  | cons a rest ih =>
    obtain ⟨c, rfl⟩ := Option.ne_none_iff_exists'.mp (hsome a (List.mem_cons_self a rest))
    match hc : c.error with
    | some msg =>
      refine ⟨some "some invokers return Error", reply, ?_, ?_⟩
      · simp [broadcastRecv, hc]
      · constructor
        · intro h; cases h
        · intro h
          have := h (some c) (List.mem_cons_self _ _) c rfl
          rw [hc] at this; cases this
    | none =>
      obtain ⟨err, rep, heq, hiff⟩ := ih c.reply (fun a ha => hsome a (List.mem_cons_of_mem _ ha))
      refine ⟨err, rep, ?_, ?_⟩
      · simpa [broadcastRecv, hc] using heq
      · rw [hiff]
        constructor
        · intro h b hb c2 hc2
          rcases List.mem_cons.mp hb with hb | hb
          · subst hb; injection hc2 with h2; subst h2; exact hc
          · exact h b hb c2 hc2
        · intro h b hb c2 hc2
          exact h b (List.mem_cons_of_mem _ hb) c2 hc2

/-- The forking receive loop, under the same conditions: it terminates, the
error is nil exactly when some arrival succeeded, and on success the reply is
the (first) successful arrival's reply. -/
lemma forkingRecv_sound (arrivals : List (Option MCall)) (reply : Nat)
    (hsome : ∀ a ∈ arrivals, a ≠ none) :
    ∃ err rep, forkingRecv reply arrivals arrivals.length = some (err, rep) ∧
      (err = none ↔ ∃ a ∈ arrivals, ∃ c, a = some c ∧ c.error = none) ∧
      (err = none → ∃ a ∈ arrivals, ∃ c, a = some c ∧ c.error = none ∧ rep = c.reply) := by
  induction arrivals with
  | nil =>
    refine ⟨some "all invokers return Error", reply, rfl, ?_, ?_⟩ <;> simp
  | cons a rest ih =>
    obtain ⟨c, rfl⟩ := Option.ne_none_iff_exists'.mp (hsome a (List.mem_cons_self a rest))
    match hc : c.error with
    | none =>
      refine ⟨none, c.reply, ?_, ?_, ?_⟩
      · simp [forkingRecv, hc]
      · simp only [true_iff]
        exact ⟨some c, List.mem_cons_self _ _, c, rfl, hc⟩
      · intro _
        exact ⟨some c, List.mem_cons_self _ _, c, rfl, hc, rfl⟩
    | some msg =>
      obtain ⟨err, rep, heq, hiff, hrep⟩ := ih (fun a ha => hsome a (List.mem_cons_of_mem _ ha))
      refine ⟨err, rep, ?_, ?_, ?_⟩
      · simpa [forkingRecv, hc] using heq
      · rw [hiff]
        constructor
        · rintro ⟨b, hb, c2, rfl, hc2⟩
          exact ⟨some c2, List.mem_cons_of_mem _ hb, c2, rfl, hc2⟩
        · rintro ⟨b, hb, c2, rfl, hc2⟩
          rcases List.mem_cons.mp hb with hb | hb
          · injection hb with h2; subst h2; rw [hc] at hc2; cases hc2
          · exact ⟨some c2, hb, c2, rfl, hc2⟩
      · intro he
        obtain ⟨b, hb, c2, rfl, hc2, hr⟩ := hrep he
        exact ⟨some c2, List.mem_cons_of_mem _ hb, c2, rfl, hc2, hr⟩

/-- C4: under `Broadcast`, the call is dispatched to every invoker of the
selector's `List`, and the overall error is nil iff every invoker's call
returned a nil error.  `outcome i` is invoker i's call result; `arrivals` is
the order in which the `done` channel delivers them (any permutation of the
per-invoker results, one each). -/
theorem c4_broadcast_success_iff_all (invokers : List Nat) (outcome : Nat → MCall)
    (reply : Nat) (arrivals : List (Option MCall))
    (hperm : arrivals.Perm (invokers.map fun i => some (outcome i))) :
    ∃ err rep, invokerBroadCast invokers reply arrivals = (invokers, some (err, rep)) ∧
      (err = none ↔ ∀ i ∈ invokers, (outcome i).error = none) := by
  have hlen : arrivals.length = invokers.length := by
    simpa using hperm.length_eq
  have hsome : ∀ a ∈ arrivals, a ≠ none := by
    intro a ha
    have : a ∈ invokers.map fun i => some (outcome i) := hperm.mem_iff.mp ha
    obtain ⟨i, _, rfl⟩ := List.mem_map.mp this
    simp
  have htrans : (∀ a ∈ arrivals, ∀ c, a = some c → c.error = none) ↔
      (∀ i ∈ invokers, (outcome i).error = none) := by
    constructor
    · intro h i hi
      exact h (some (outcome i)) (hperm.mem_iff.mpr (List.mem_map.mpr ⟨i, hi, rfl⟩))
        (outcome i) rfl
    · intro h a ha c hc
      subst hc
      obtain ⟨i, hi, hsc⟩ := List.mem_map.mp (hperm.mem_iff.mp ha)
      injection hsc with h2
      rw [← h2]
      exact h i hi
  by_cases hinv : invokers = []
  · subst hinv
    have : arrivals = [] := List.perm_nil.mp (by simpa using hperm)
    subst this
    exact ⟨none, reply, rfl, by simp⟩
  · obtain ⟨err, rep, heq, hiff⟩ := broadcastRecv_sound arrivals reply hsome
    refine ⟨err, rep, ?_, hiff.trans htrans⟩
    rw [invokerBroadCast, if_neg (by simpa using hinv), ← hlen, heq]

/-- C5: under `Forking`, the call is dispatched to every invoker of the
selector's `List`; the overall error is nil iff some invoker's call returned a
nil error, and on success the final reply is the reply delivered by the first
successful invoker. -/
theorem c5_forking_success_iff_any (invokers : List Nat) (outcome : Nat → MCall)
    (reply : Nat) (arrivals : List (Option MCall))
    (hinv : invokers ≠ [])
    (hperm : arrivals.Perm (invokers.map fun i => some (outcome i))) :
    ∃ err rep, invokerForking invokers reply arrivals = (invokers, some (err, rep)) ∧
      (err = none ↔ ∃ i ∈ invokers, (outcome i).error = none) ∧
      (err = none → ∃ i ∈ invokers, (outcome i).error = none ∧ rep = (outcome i).reply) := by
  have hlen : arrivals.length = invokers.length := by
    simpa using hperm.length_eq
  have hsome : ∀ a ∈ arrivals, a ≠ none := by
    intro a ha
    have : a ∈ invokers.map fun i => some (outcome i) := hperm.mem_iff.mp ha
    obtain ⟨i, _, rfl⟩ := List.mem_map.mp this
    simp
  have htrans : (∃ a ∈ arrivals, ∃ c, a = some c ∧ c.error = none) ↔
      (∃ i ∈ invokers, (outcome i).error = none) := by
    constructor
    · rintro ⟨a, ha, c, rfl, hc⟩
      obtain ⟨i, hi, hsc⟩ := List.mem_map.mp (hperm.mem_iff.mp ha)
      injection hsc with h2
      exact ⟨i, hi, by rw [h2]; exact hc⟩
    · rintro ⟨i, hi, hc⟩
      exact ⟨some (outcome i), hperm.mem_iff.mpr (List.mem_map.mpr ⟨i, hi, rfl⟩),
        outcome i, rfl, hc⟩
  obtain ⟨err, rep, heq, hiff, hrep⟩ := forkingRecv_sound arrivals reply hsome
  refine ⟨err, rep, ?_, hiff.trans htrans, ?_⟩
  · rw [invokerForking, if_neg (by simpa using hinv), ← hlen, heq]
  · intro he
    obtain ⟨a, ha, c, rfl, hc, hr⟩ := hrep he
    obtain ⟨i, hi, hsc⟩ := List.mem_map.mp (hperm.mem_iff.mp ha)
    injection hsc with h2
    exact ⟨i, hi, by rw [h2]; exact hc, by rw [h2]; exact hr⟩

/-- Witness for C4: two invokers, both succeeding, with the second delivery
arriving first. -/
theorem c4_witness :
    ∃ err rep, invokerBroadCast [4, 5] 0 [some ⟨11, none⟩, some ⟨10, none⟩] =
        ([4, 5], some (err, rep)) ∧
      (err = none ↔ ∀ i ∈ [4, 5], ((fun i => MCall.mk (i + 6) none) i).error = none) :=
  c4_broadcast_success_iff_all [4, 5] (fun i => MCall.mk (i + 6) none) 0
    [some ⟨11, none⟩, some ⟨10, none⟩] (by decide)

/-- Witness for C5: invoker 4 fails, invoker 5 succeeds, the failure
arriving first. -/
theorem c5_witness :
    ∃ err rep, invokerForking [4, 5] 0
        [some ⟨0, some "boom"⟩, some ⟨11, none⟩] = ([4, 5], some (err, rep)) ∧
      (err = none ↔ ∃ i ∈ [4, 5],
        ((fun i => if i = 4 then MCall.mk 0 (some "boom") else MCall.mk 11 none) i).error
          = none) ∧
      (err = none → ∃ i ∈ [4, 5],
        ((fun i => if i = 4 then MCall.mk 0 (some "boom") else MCall.mk 11 none) i).error
            = none ∧
          rep = ((fun i => if i = 4 then MCall.mk 0 (some "boom") else MCall.mk 11 none) i).reply) :=
  c5_forking_success_iff_any [4, 5]
    (fun i => if i = 4 then MCall.mk 0 (some "boom") else MCall.mk 11 none) 0
    [some ⟨0, some "boom"⟩, some ⟨11, none⟩] (by decide) (by decide)

/-- C10: with an empty invoker list, both `invokerBroadCast` and
`invokerForking` return a nil error immediately, dispatch to no invoker, and
leave the caller's reply value untouched. -/
theorem c10_empty_invoker_list (reply : Nat) (arrivals : List (Option MCall)) :
    invokerBroadCast [] reply arrivals = ([], some (none, reply)) ∧
    invokerForking [] reply arrivals = ([], some (none, reply)) :=
  ⟨rfl, rfl⟩

/-- The event trace of `t` consecutive failing Failover iterations starting at
iteration `k`: each iteration selects, calls invoker `invs k`, and fires
`HandleFailed` on it. -/
def failTrace (invs : Nat → Nat) : Nat → Nat → List CEvent
  | _, 0 => []
  | k, t + 1 =>
    CEvent.select :: CEvent.call (invs k) :: CEvent.handleFailed (invs k) :: failTrace invs (k + 1) t

/-- Number of `call` events in a trace, i.e. the number of underlying invoker
attempts. -/
def callCount : List CEvent → Nat
  | [] => 0
  | CEvent.call _ :: tr => callCount tr + 1
  | _ :: tr => callCount tr

lemma callCount_append (tr1 tr2 : List CEvent) :
    callCount (tr1 ++ tr2) = callCount tr1 + callCount tr2 := by
  induction tr1 with
  | nil => simp [callCount]
  | cons e tr ih =>
    cases e with
    | select => simp [callCount, ih]
    | call i => simp [callCount, ih]; omega
    | handleFailed i => simp [callCount, ih]

lemma callCount_failTrace (invs : Nat → Nat) (k t : Nat) :
    callCount (failTrace invs k t) = t := by
  induction t generalizing k with
  | zero => rfl
  | succ t ih => simp [failTrace, callCount, ih]

lemma failoverLoop_all_fail (invs : Nat → Nat) (errs : Nat → String)
    (selRes : Nat → Option String × Option Nat) (callRes : Nat → Option String)
    (t : Nat) :
    ∀ (k : Nat) (err : Option String) (tr : List CEvent),
      (∀ j, k ≤ j → j < k + t → selRes j = (none, some (invs j))) →
      (∀ j, k ≤ j → j < k + t → callRes j = some (errs j)) →
      0 < t →
      failoverLoop selRes callRes t k err tr = (some (errs (k + t - 1)), tr ++ failTrace invs k t) := by
  induction t with
  | zero => intro _ _ _ _ _ h; cases h
  | succ t ih =>
    intro k err tr hsel hcall _
    rw [failoverLoop]
    rw [hsel k (le_refl k) (by omega)]
    simp only
    rw [hcall k (le_refl k) (by omega)]
    simp only
    cases t with
    | zero =>
      rw [failoverLoop]
      simp [failTrace]
    | succ t2 =>
      rw [ih (k + 1) (some (errs k)) _
        (fun j h1 h2 => hsel j (by omega) (by omega))
        (fun j h1 h2 => hcall j (by omega) (by omega))
        (by omega)]
      simp only [failTrace]
      rw [show k + 1 + (t2 + 1) - 1 = k + (t2 + 1 + 1) - 1 by omega]
      simp

/-- C6: under `Failover` with a selector that always yields an invoker and an
invoker whose call always fails, `Client.Call` performs exactly `maxTry`
underlying invoker attempts — each one a `select`, a `call` on the selected
invoker, then `HandleFailed` on that same invoker — and returns the error of
the last attempt. -/
theorem c6_failover_maxtry_attempts (maxTry : Nat) (invs : Nat → Nat) (errs : Nat → String)
    (selRes : Nat → Option String × Option Nat) (callRes : Nat → Option String)
    (hsel : ∀ k, k < maxTry → selRes k = (none, some (invs k)))
    (hcall : ∀ k, k < maxTry → callRes k = some (errs k))
    (hpos : 0 < maxTry) :
    clientCallSeqPart FailMode.failover maxTry selRes callRes =
      (some (errs (maxTry - 1)), failTrace invs 0 maxTry) ∧
    callCount (failTrace invs 0 maxTry) = maxTry := by
  constructor
  · rw [clientCallSeqPart, if_pos rfl]
    have := failoverLoop_all_fail invs errs selRes callRes maxTry 0 none []
      (fun j _ h2 => hsel j (by omega)) (fun j _ h2 => hcall j (by omega)) hpos
    simpa using this
  · exact callCount_failTrace invs 0 maxTry

/-- Witness for C6 at `maxTry = 2` with concrete selector and call oracles. -/
theorem c6_witness :
    clientCallSeqPart FailMode.failover 2 (fun k => (none, some (k + 10)))
        (fun k => some (toString k)) =
      (some (toString 1), failTrace (fun k => k + 10) 0 2) ∧
    callCount (failTrace (fun k => k + 10) 0 2) = 2 :=
  c6_failover_maxtry_attempts 2 (fun k => k + 10) (fun k => toString k)
    (fun k => (none, some (k + 10))) (fun k => some (toString k))
    (fun _ _ => rfl) (fun _ _ => rfl) (by decide)

/-! ## Server registry (server/server.go, `Server.register`)

The registry is the Go map `serviceMap : path → Service`; services are
abstracted to `Nat` identities.  The service builder's output and the two
plugin containers' `doRegister` hooks are oracles. -/

/-- Errors accumulated by `Server.register`. -/
inductive RegErr where
  | builderFailure (msg : String)
  | invalidService
  | alreadyExists (path : String)
  | pluginFailure (msg : String)
deriving DecidableEq, Repr

/-- Go map assignment `m[k] = v`. -/
def mapUpdate (m : String → Option Nat) (k : String) (v : Nat) : String → Option Nat :=
  fun k2 => if k2 = k then some v else m k2

/-- The per-service loop of `Server.register` (server/server.go lines
172-206): for each built service, a present path appends an
`ErrServiceAlreadyExists` to the error list, the two plugin containers'
`doRegister` results are appended when failing — and then the service is
stored into `serviceMap[spath]` unconditionally. -/
def registerLoop (hook1 hook2 : String → Option String) :
    (String → Option Nat) → List RegErr → List (String × Nat) →
      (String → Option Nat) × List RegErr
  | m, errs, [] => (m, errs)
  | m, errs, (spath, svc) :: rest =>
    let errs1 := if m spath ≠ none then errs ++ [RegErr.alreadyExists spath] else errs
    let errs2 := match hook1 spath with
      | some msg => errs1 ++ [RegErr.pluginFailure msg]
      | none => errs1
    let errs3 := match hook2 spath with
      | some msg => errs2 ++ [RegErr.pluginFailure msg]
      | none => errs2
    registerLoop hook1 hook2 (mapUpdate m spath svc) errs3 rest

/-- `Server.register` (server/server.go lines 161-213).  `built` is the result
of `ServiceBuilder.NewServices` for the receiver (path/service pairs); an
empty build is rejected; otherwise the loop runs and a non-empty error list is
returned as a multi-error. -/
def register (hook1 hook2 : String → Option String) (m : String → Option Nat)
    (built : Except String (List (String × Nat))) :
    (String → Option Nat) × Option (List RegErr) :=
  match built with
  | Except.error e => (m, some [RegErr.builderFailure e])
  | Except.ok services =>
    if services.length = 0 then (m, some [RegErr.invalidService])
    else
      let r := registerLoop hook1 hook2 m [] services
      (r.1, if r.2.length = 0 then none else some r.2)

/-- C2 (code bug): registering the same path twice makes the second
`register` return an AlreadyExists error — but the registry entry is
nevertheless replaced by the second service.  The claim (and Go `net/rpc`,
from which this code derives) requires the first entry to be kept. -/
theorem c2_second_register_replaces_entry :
    (register (fun _ => none) (fun _ => none)
        ((register (fun _ => none) (fun _ => none) (fun _ => none)
          (Except.ok [("/arith/mul", 1)])).1)
        (Except.ok [("/arith/mul", 2)])).2 = some [RegErr.alreadyExists "/arith/mul"] ∧
    (register (fun _ => none) (fun _ => none)
        ((register (fun _ => none) (fun _ => none) (fun _ => none)
          (Except.ok [("/arith/mul", 1)])).1)
        (Except.ok [("/arith/mul", 2)])).1 "/arith/mul" = some 2 ∧
    (register (fun _ => none) (fun _ => none) (fun _ => none)
        (Except.ok [("/arith/mul", 1)])).1 "/arith/mul" = some 1 := by
  refine ⟨?_, ?_, ?_⟩ <;> rfl

/-! ## Server context pool (server/server.go `getContext`, server_context.go)

`Context` mirrors the Go struct field-for-field; reflective values
(`argv`, `replyv`, `service`, `codecConn`) are abstracted to `Option Nat`, the
`data` map and `query` values to association lists. -/

/-- The server-side per-request `Context` (server/server_context.go lines
17-30).  `reqSeq`/`reqServiceMethod` are the embedded `rpc.Request`;
`respSeq`/`respServiceMethod`/`respError` the embedded `rpc.Response`. -/
structure Context where
  codecConn : Option Nat
  reqServiceMethod : String
  reqSeq : Nat
  respServiceMethod : String
  respSeq : Nat
  respError : String
  service : Option Nat
  argv : Option Nat
  replyv : Option Nat
  path : String
  query : List (String × String)
  data : List (String × String)
  rpcErrorType : Nat
deriving DecidableEq, Repr

/-- `Server.getContext` (server/server.go lines 485-502): the context drawn
from the pool has its request/response headers, data map, service, codec
connection, query, argv and replyv reset — but the source never touches
`path` or `rpcErrorType` (it sets `ctx.service = nil` twice instead). -/
def getContext (ctx : Context) (conn : Nat) : Context :=
  { ctx with
    reqServiceMethod := ""
    reqSeq := 0
    respError := ""
    respSeq := 0
    respServiceMethod := ""
    data := []
    service := none
    codecConn := some conn
    query := []
    argv := none
    replyv := none }

/-- C3 (code bug): a recycled context that a previous request left with
`path = "/old"` and `rpcErrorType = 5` (NotFoundService) is checked out with
every other mutable field reset but `path` and `rpcErrorType` still carrying
the stale values, contradicting the all-fields-reset claim. -/
theorem c3_getcontext_keeps_stale_path_and_errortype :
    getContext
        { codecConn := some 8, reqServiceMethod := "/old?x=1", reqSeq := 7,
          respServiceMethod := "/old?x=1", respSeq := 7, respError := "boom",
          service := some 3, argv := some 9, replyv := some 10, path := "/old",
          query := [("x", "1")], data := [("k", "v")], rpcErrorType := 5 } 2 =
      { codecConn := some 2, reqServiceMethod := "", reqSeq := 0,
        respServiceMethod := "", respSeq := 0, respError := "",
        service := none, argv := none, replyv := none, path := "/old",
        query := [], data := [], rpcErrorType := 5 } ∧
    (getContext
        { codecConn := some 8, reqServiceMethod := "/old?x=1", reqSeq := 7,
          respServiceMethod := "/old?x=1", respSeq := 7, respError := "boom",
          service := some 3, argv := some 9, replyv := some 10, path := "/old",
          query := [("x", "1")], data := [("k", "v")], rpcErrorType := 5 } 2).path ≠ "" ∧
    (getContext
        { codecConn := some 8, reqServiceMethod := "/old?x=1", reqSeq := 7,
          respServiceMethod := "/old?x=1", respSeq := 7, respError := "boom",
          service := some 3, argv := some 9, replyv := some 10, path := "/old",
          query := [("x", "1")], data := [("k", "v")], rpcErrorType := 5 } 2).rpcErrorType ≠ 0 := by
  refine ⟨rfl, ?_, ?_⟩ <;> decide

/-! ## Error-kind taxonomy and response writing (server_context.go `writeResponse`) -/

/-- Modelled from the spec: §7 numeric error-kind codes of the `common`
package (`common.ErrorType`), whose source is not under src/.  The server-side
kinds are numbered 1-10 in the order listed; the Go zero value of the type is
0, which is not a listed kind. -/
def errorTypeServerPreReadRequestHeader : Nat := 1

/-- Modelled from the spec: §7 code 2. -/
def errorTypeServerReadRequestHeader : Nat := 2

/-- Modelled from the spec: §7 code 3. -/
def errorTypeServerInvalidServiceMethod : Nat := 3

/-- Modelled from the spec: §7 code 4. -/
def errorTypeServerPostReadRequestHeader : Nat := 4

/-- Modelled from the spec: §7 code 5. -/
def errorTypeServerNotFoundService : Nat := 5

/-- Modelled from the spec: §7 code 6. -/
def errorTypeServerPreReadRequestBody : Nat := 6

/-- Modelled from the spec: §7 code 7. -/
def errorTypeServerReadRequestBody : Nat := 7

/-- Modelled from the spec: §7 code 8. -/
def errorTypeServerPostReadRequestBody : Nat := 8

/-- Modelled from the spec: §7 code 9. -/
def errorTypeServerPreWriteResponse : Nat := 9

/-- Modelled from the spec: §7 code 10. -/
def errorTypeServerPostWriteResponse : Nat := 10

/-- Modelled from the spec: the §7 codes of the server-side error kinds that
can tag a response the server writes. -/
def serverErrorKindCodes : List Nat := [1, 2, 3, 4, 5, 6, 7, 8, 9, 10]

/-- The error-string logic of `Context.writeResponse` (server_context.go lines
192-221), producing the wire error string, the final `rpcErrorType` and the
body that is written.  A failing `PreWriteResponse` hook (`preErr`) sets kind
9, replaces the response error with the hook error and nils the body; then a
non-empty response error string is replaced by
`strconv.Itoa(int(ctx.rpcErrorType))` concatenated directly in front of it. -/
def writeResponseWire (preErr : Option String) (rpcErrorType : Nat) (respError : String)
    (body : Option Nat) : String × Nat × Option Nat :=
  match preErr with
  | some e =>
    (if 0 < e.length then toString errorTypeServerPreWriteResponse ++ e else e,
      errorTypeServerPreWriteResponse, none)
  | none =>
    (if 0 < respError.length then toString rpcErrorType ++ respError else respError,
      rpcErrorType, body)

/-- C7 counterexample: a handler-returned error `"boom"` written through a
fresh context (whose `rpcErrorType` is the zero value 0, since no read-path
failure classified this request) goes on the wire as `"0boom"` — prefixed by
0, which is the decimal code of no §7 error kind, so the wire string is not
the code of the failure that produced it. -/
theorem c7_counterexample_handler_error_prefix_zero :
    (writeResponseWire none 0 "boom" none).1 = "0boom" ∧
    ¬ ∃ c ∈ serverErrorKindCodes,
        (writeResponseWire none 0 "boom" none).1 = toString c ++ "boom" := by
  constructor
  · rfl
  · decide

/-- C7 as amended: the wire error string of every response whose error is
non-empty is the decimal rendering of the context's `rpcErrorType` at write
time concatenated directly in front of the message: the §7 code for failures
the server's read/plugin pipeline classified on this request, the code 9 for a
failing PreWriteResponse hook, but for handler-returned errors merely the
context's leftover `rpcErrorType` (0 on a fresh context). -/
theorem c7_amended_prefix_is_current_errortype (et : Nat) (msg : String) (body : Option Nat)
    (hmsg : 0 < msg.length) :
    (writeResponseWire none et msg body).1 = toString et ++ msg ∧
    (∀ e : String, 0 < e.length →
      (writeResponseWire (some e) et msg body).1 =
        toString errorTypeServerPreWriteResponse ++ e) := by
  constructor
  · rw [writeResponseWire]
    simp [hmsg]
  · intro e he
    rw [writeResponseWire]
    simp [he]

/-- Witness for C7's amended theorem at kind 5 and message `"boom"`. -/
theorem c7_amended_witness :
    (writeResponseWire none 5 "boom" none).1 = toString 5 ++ "boom" ∧
    (∀ e : String, 0 < e.length →
      (writeResponseWire (some e) 5 "boom" none).1 =
        toString errorTypeServerPreWriteResponse ++ e) :=
  c7_amended_prefix_is_current_errortype 5 "boom" none (by decide)

/-! ## Per-connection serve loop (server.go `ServeConn`, `readRequest`;
server_context.go `readRequestHeader`, `readRequestBody`)

The codec, the URI format and the plugin hooks of one request are oracles in a
`ConnOracle`; one iteration of the `ServeConn` loop is `serveStepM`. -/

/-- Result of the codec's `ReadRequestHeader`: Go distinguishes `io.EOF` and
`io.ErrUnexpectedEOF` from every other error. -/
inductive RdErr where
  | eof
  | unexpectedEof
  | other (msg : String)
deriving DecidableEq, Repr

/-- Oracle for one request on a connection: plugin hook results, codec
read results, URI parse and registry lookup. -/
structure ConnOracle where
  preHeaderErr : Option String
  headerRead : Except RdErr (Nat × String)
  uriParse : String → Except String (String × List (String × String))
  postHeaderErr : Option String
  serviceMap : String → Option Nat
  preBodyErr : Option String
  bodyRead : Except String Nat
  postBodyErr : Option String
  preWriteErr : Option String

/-- Result of `Context.readRequestHeader`. -/
structure HdrResult where
  ctx : Context
  keepReading : Bool
  notSend : Bool
  err : Option String
deriving Repr

/-- `Context.readRequestHeader` (server_context.go lines 101-158): pre hook
(kind 1), codec header read (kind 2; `io.EOF`/`io.ErrUnexpectedEOF` return
with `notSend` and without `keepReading`), then — with `keepReading` now true —
URI parse (kind 3), post hook (kind 4) and registry lookup (kind 5).  Error
message texts are modelled up to punctuation (the Go not-found message quotes
the path between apostrophes). -/
def readRequestHeaderM (o : ConnOracle) (ctx : Context) : HdrResult :=
  match o.preHeaderErr with
  | some e =>
    ⟨{ ctx with rpcErrorType := errorTypeServerPreReadRequestHeader }, false, false, some e⟩
  | none =>
    match o.headerRead with
    | Except.error RdErr.eof =>
      ⟨{ ctx with rpcErrorType := errorTypeServerReadRequestHeader }, false, true, some "EOF"⟩
    | Except.error RdErr.unexpectedEof =>
      ⟨{ ctx with rpcErrorType := errorTypeServerReadRequestHeader }, false, true,
        some "unexpected EOF"⟩
    | Except.error (RdErr.other m) =>
      ⟨{ ctx with rpcErrorType := errorTypeServerReadRequestHeader }, false, false,
        some ("ReadRequestHeader: " ++ m)⟩
    | Except.ok (seq, sm) =>
      let ctx1 := { ctx with reqSeq := seq, reqServiceMethod := sm }
      match o.uriParse sm with
      | Except.error m =>
        ⟨{ ctx1 with rpcErrorType := errorTypeServerInvalidServiceMethod }, true, false, some m⟩
      | Except.ok (p, q) =>
        let ctx2 := { ctx1 with path := p, query := q }
        match o.postHeaderErr with
        | some e =>
          ⟨{ ctx2 with rpcErrorType := errorTypeServerPostReadRequestHeader }, true, false, some e⟩
        | none =>
          match o.serviceMap p with
          | none =>
            ⟨{ ctx2 with service := none, rpcErrorType := errorTypeServerNotFoundService },
              true, false, some ("cannot find service " ++ p)⟩
          | some s => ⟨{ ctx2 with service := some s }, true, false, none⟩

/-- Result of `Context.readRequestBody`. -/
structure BodyResult where
  ctx : Context
  err : Option String
  codecReadInvoked : Bool
  decoded : Option Nat
deriving Repr

/-- `Context.readRequestBody` (server_context.go lines 160-189): pre hooks
(kind 6, the codec is not reached when they fail), codec body read (kind 7),
post hooks (kind 8). -/
def readRequestBodyM (o : ConnOracle) (ctx : Context) : BodyResult :=
  match o.preBodyErr with
  | some e => ⟨{ ctx with rpcErrorType := errorTypeServerPreReadRequestBody }, some e, false, none⟩
  | none =>
    match o.bodyRead with
    | Except.error m =>
      ⟨{ ctx with rpcErrorType := errorTypeServerReadRequestBody },
        some ("ReadRequestBody: " ++ m), true, none⟩
    | Except.ok v =>
      match o.postBodyErr with
      | some e =>
        ⟨{ ctx with rpcErrorType := errorTypeServerPostReadRequestBody }, some e, true, some v⟩
      | none => ⟨ctx, none, true, some v⟩

/-- Result of `Server.readRequest`. -/
structure ReadReqResult where
  ctx : Context
  keepReading : Bool
  notSend : Bool
  err : Option String
  drainInvoked : Bool
deriving Repr

/-- `Server.readRequest` (server/server.go lines 403-449): a failing header
read with `keepReading` set discards the body via `ctx.readRequestBody(nil)`
(its result is ignored); otherwise argv is allocated, the body decoded into it
and replyv allocated. -/
def readRequestM (o : ConnOracle) (ctx : Context) : ReadReqResult :=
  let h := readRequestHeaderM o ctx
  match h.err with
  | some e =>
    if h.keepReading then ⟨(readRequestBodyM o h.ctx).ctx, h.keepReading, h.notSend, some e, true⟩
    else ⟨h.ctx, h.keepReading, h.notSend, some e, false⟩
  | none =>
    let b := readRequestBodyM o h.ctx
    match b.err with
    | some e => ⟨b.ctx, h.keepReading, h.notSend, some e, false⟩
    | none => ⟨{ b.ctx with argv := b.decoded, replyv := some 0 }, h.keepReading, h.notSend,
        none, false⟩

/-- Fate of one iteration of the `ServeConn` loop:  terminate the loop and
close the connection; send an error response and continue; release the
context silently and continue; or dispatch the handler concurrently. -/
inductive StepOutcome where
  | closeConn
  | respondAndContinue (respSeq : Nat) (wireError : String)
  | discardAndContinue
  | dispatchHandler (reqSeq : Nat)
deriving DecidableEq, Repr

/-- The error path of `Server.sendResponse` (server/server.go lines 465-483):
the response takes the request's `Seq` and `ServiceMethod`, carries `errmsg`
and the `invalidRequest` placeholder body, and goes through
`Context.writeResponse` (which prefixes the error kind). -/
def sendResponseErr (o : ConnOracle) (ctx : Context) (errmsg : String) : Nat × String :=
  (ctx.reqSeq, (writeResponseWire o.preWriteErr ctx.rpcErrorType errmsg none).1)

/-- One iteration of the `ServeConn` loop (server/server.go lines 354-374):
read a request into a pooled context; on error, break the loop when
`keepReading` is unset, else send an error response unless `notSend`;
otherwise dispatch the handler.  The `Bool` records whether the body-drain
`ctx.readRequestBody(nil)` was invoked. -/
def serveStepM (o : ConnOracle) (pooled : Context) (conn : Nat) : StepOutcome × Bool :=
  let r := readRequestM o (getContext pooled conn)
  match r.err with
  | some e =>
    if ¬ r.keepReading then (StepOutcome.closeConn, r.drainInvoked)
    else if ¬ r.notSend then
      let resp := sendResponseErr o r.ctx e
      (StepOutcome.respondAndContinue resp.1 resp.2, r.drainInvoked)
    else (StepOutcome.discardAndContinue, r.drainInvoked)
  | none => (StepOutcome.dispatchHandler r.ctx.reqSeq, r.drainInvoked)

/-- After a successful codec header read, every branch of
`readRequestHeader` keeps reading, clears `notSend` and preserves the parsed
sequence number. -/
lemma readRequestHeaderM_after_ok (o : ConnOracle) (ctx : Context) (seq : Nat) (sm : String)
    (hpre : o.preHeaderErr = none) (hok : o.headerRead = Except.ok (seq, sm)) :
    (readRequestHeaderM o ctx).keepReading = true ∧
    (readRequestHeaderM o ctx).notSend = false ∧
    (readRequestHeaderM o ctx).ctx.reqSeq = seq := by
  simp only [readRequestHeaderM, hpre, hok]
  cases hup : o.uriParse sm with
  | error m => simp
  | ok pq =>
    obtain ⟨p, q⟩ := pq
    cases hph : o.postHeaderErr with
    | some e => simp
    | none =>
      cases hsm : o.serviceMap p with
      | none => simp [hsm]
      | some s => simp [hsm]

/-- The body reader never touches the request sequence number. -/
lemma readRequestBodyM_reqSeq (o : ConnOracle) (ctx : Context) :
    (readRequestBodyM o ctx).ctx.reqSeq = ctx.reqSeq := by
  rw [readRequestBodyM]
  cases o.preBodyErr with
  | some e => rfl
  | none =>
    cases o.bodyRead with
    | error m => rfl
    | ok v =>
      cases o.postBodyErr with
      | some e => rfl
      | none => rfl

/-- C8: in the per-connection loop, (i) when the request header was
successfully read (`keepReading` becomes true) and a later step of
`readRequestHeader` fails, the body is drained, an error response carrying the
request's sequence number is sent, and the loop continues; (ii) when the body
read/decode fails after a clean header, an error response with the same
sequence number is sent and the loop continues; (iii) an end-of-stream error
on the header read terminates the loop (closing the connection) with no
response sent. -/
theorem c8_header_fail_responds_eof_closes (o : ConnOracle) (pooled : Context)
    (conn seq : Nat) (sm : String) :
    (o.preHeaderErr = none → o.headerRead = Except.ok (seq, sm) →
      ∀ e, (readRequestHeaderM o (getContext pooled conn)).err = some e →
        ∃ w, serveStepM o pooled conn = (StepOutcome.respondAndContinue seq w, true)) ∧
    (o.preHeaderErr = none → o.headerRead = Except.ok (seq, sm) →
      (readRequestHeaderM o (getContext pooled conn)).err = none →
      ∀ e, (readRequestBodyM o (readRequestHeaderM o (getContext pooled conn)).ctx).err = some e →
        ∃ w b, serveStepM o pooled conn = (StepOutcome.respondAndContinue seq w, b)) ∧
    (o.preHeaderErr = none → o.headerRead = Except.error RdErr.eof →
      serveStepM o pooled conn = (StepOutcome.closeConn, false)) := by
  refine ⟨?_, ?_, ?_⟩
  · intro hpre hok e herr
    obtain ⟨hkr, hns, hseq⟩ :=
      readRequestHeaderM_after_ok o (getContext pooled conn) seq sm hpre hok
    refine ⟨(sendResponseErr o (readRequestBodyM o
      (readRequestHeaderM o (getContext pooled conn)).ctx).ctx e).2, ?_⟩
    rw [serveStepM]
    simp only [readRequestM, herr, hkr, if_true]
    simp only [hns, Bool.not_true, Bool.not_false, if_true, if_false]
    have : (readRequestBodyM o (readRequestHeaderM o (getContext pooled conn)).ctx).ctx.reqSeq
        = seq := by
      rw [readRequestBodyM_reqSeq]; exact hseq
    simp [sendResponseErr, this]
  · intro hpre hok hnone e herr
    obtain ⟨hkr, hns, hseq⟩ :=
      readRequestHeaderM_after_ok o (getContext pooled conn) seq sm hpre hok
    refine ⟨(sendResponseErr o (readRequestBodyM o
      (readRequestHeaderM o (getContext pooled conn)).ctx).ctx e).2, false, ?_⟩
    rw [serveStepM]
    simp only [readRequestM, hnone, herr]
    simp only [hkr, hns, Bool.not_true, Bool.not_false, if_true, if_false]
    have : (readRequestBodyM o (readRequestHeaderM o (getContext pooled conn)).ctx).ctx.reqSeq
        = seq := by
      rw [readRequestBodyM_reqSeq]; exact hseq
    simp [sendResponseErr, this]
  · intro hpre heof
    rw [serveStepM]
    simp only [readRequestM, readRequestHeaderM, hpre, heof]
    rfl

/-- Witness for C8: a concrete oracle whose registry lookup misses exercises
part (i); flipping the header read to EOF exercises part (iii). -/
theorem c8_witness :
    (∃ w, serveStepM
        { preHeaderErr := none, headerRead := Except.ok (7, "/x/y"),
          uriParse := fun s => Except.ok (s, []), postHeaderErr := none,
          serviceMap := fun _ => none, preBodyErr := none, bodyRead := Except.ok 0,
          postBodyErr := none, preWriteErr := none }
        { codecConn := none, reqServiceMethod := "", reqSeq := 0,
          respServiceMethod := "", respSeq := 0, respError := "", service := none,
          argv := none, replyv := none, path := "", query := [], data := [],
          rpcErrorType := 0 } 1 = (StepOutcome.respondAndContinue 7 w, true)) ∧
    serveStepM
        { preHeaderErr := none, headerRead := Except.error RdErr.eof,
          uriParse := fun s => Except.ok (s, []), postHeaderErr := none,
          serviceMap := fun _ => none, preBodyErr := none, bodyRead := Except.ok 0,
          postBodyErr := none, preWriteErr := none }
        { codecConn := none, reqServiceMethod := "", reqSeq := 0,
          respServiceMethod := "", respSeq := 0, respError := "", service := none,
          argv := none, replyv := none, path := "", query := [], data := [],
          rpcErrorType := 0 } 1 = (StepOutcome.closeConn, false) :=
  ⟨(c8_header_fail_responds_eof_closes _ _ 1 7 "/x/y").1 rfl rfl _ rfl,
   (c8_header_fail_responds_eof_closes
      { preHeaderErr := none, headerRead := Except.error RdErr.eof,
        uriParse := fun s => Except.ok (s, []), postHeaderErr := none,
        serviceMap := fun _ => none, preBodyErr := none, bodyRead := Except.ok 0,
        postBodyErr := none, preWriteErr := none }
      { codecConn := none, reqServiceMethod := "", reqSeq := 0,
        respServiceMethod := "", respSeq := 0, respError := "", service := none,
        argv := none, replyv := none, path := "", query := [], data := [],
        rpcErrorType := 0 } 1 7 "/x/y").2.2 rfl rfl⟩

/-! ## Colfer `Header` codec (codec/colfer generated code)

The wire type `Header {SeqID uint64; Method, Error string}` and its
`MarshalTo`/`MarshalLen`/`MarshalBinary`/`Unmarshal`/`UnmarshalBinary`.
Byte buffers and the two strings are `List Nat` of byte values; `SeqID` is a
`Nat` constrained to `< 2^64` where the `uint64` type matters. -/

/-- `ColferSizeMax`, the upper limit for serial byte sizes. -/
def colferSizeMax : Nat := 16 * 1024 * 1024

/-- The colfer `Header` struct: `SeqID uint64`, `Method string`,
`Error string` (strings as byte lists). -/
structure Header where
  seqID : Nat
  method : List Nat
  error : List Nat
deriving DecidableEq, Repr

/-- The colfer errors: `io.EOF`, `ColferMax`, `ColferError i` (unknown header
at byte i) and `ColferTail i` (data continuation at byte i). -/
inductive ColErr where
  | eof
  | max
  | badHeader (i : Nat)
  | tail (i : Nat)
deriving DecidableEq, Repr

/-- The byte-emitting loop shared by all three fields of `Header.MarshalTo`:
`for x >= 0x80 { buf[i] = byte(x | 0x80); x >>= 7 }; buf[i] = byte(x)`. -/
def putVarint (x : Nat) : List Nat :=
  if h : 0x80 ≤ x then ((x ||| 0x80) % 256) :: putVarint (x >>> 7) else [x]
decreasing_by
  simp only [Nat.shiftRight_eq_div_pow]
  exact Nat.div_lt_self (by omega) (by norm_num)

/-- The extra-byte count of the analogous loop in `Header.MarshalLen`:
`for x >= 0x80 { x >>= 7; l++ }`. -/
def varintTailLen (x : Nat) : Nat :=
  if h : 0x80 ≤ x then 1 + varintTailLen (x >>> 7) else 0
decreasing_by
  simp only [Nat.shiftRight_eq_div_pow]
  exact Nat.div_lt_self (by omega) (by norm_num)

/-- The `SeqID` section of `Header.MarshalTo` (part_002 lines 47-62): a key
byte `0|0x80` plus eight big-endian bytes when `x >= 1<<49`, a key byte `0`
plus a varint when `x != 0`, nothing when zero. -/
def marshalSeq (x : Nat) : List Nat :=
  if 1 <<< 49 ≤ x then
    0x80 :: [(x >>> 56) % 256, (x >>> 48) % 256, (x >>> 40) % 256, (x >>> 32) % 256,
      (x >>> 24) % 256, (x >>> 16) % 256, (x >>> 8) % 256, x % 256]
  else if x ≠ 0 then 0 :: putVarint x
  else []

/-- A string section of `Header.MarshalTo` (part_002 lines 64-92): key byte,
length varint, then the bytes; nothing when the string is empty. -/
def marshalField (tag : Nat) (s : List Nat) : List Nat :=
  if s.length ≠ 0 then tag :: (putVarint s.length ++ s) else []

/-- `Header.MarshalTo` (part_002 lines 44-97): the three sections followed by
the terminator byte `0x7f`. -/
def marshalTo (o : Header) : List Nat :=
  marshalSeq o.seqID ++ marshalField 1 o.method ++ marshalField 2 o.error ++ [0x7f]

/-- The byte count computed by `Header.MarshalLen` (part_002 lines 101-136)
before the `ColferSizeMax` comparison. -/
def marshalLenN (o : Header) : Nat :=
  1
    + (if 1 <<< 49 ≤ o.seqID then 9
       else if o.seqID ≠ 0 then 2 + varintTailLen o.seqID else 0)
    + (if o.method.length ≠ 0 then o.method.length + varintTailLen o.method.length + 2 else 0)
    + (if o.error.length ≠ 0 then o.error.length + varintTailLen o.error.length + 2 else 0)

/-- `Header.MarshalBinary` (part_002 lines 140-148): `MarshalLen`, failing
with `ColferMax` past the limit, then a buffer of exactly that size filled by
`MarshalTo`. -/
def marshalBinary (o : Header) : Except ColErr (List Nat) :=
  if colferSizeMax < marshalLenN o then Except.error ColErr.max
  else Except.ok (marshalTo o)

/-- The `SeqID` varint decode loop of `Header.Unmarshal` (part_002 lines
168-180): `uint64` accumulation; a byte below `0x80`, or the 9th byte
(`shift == 56`), terminates, the final byte entering unmasked. -/
def getU64 : List Nat → Nat → Nat → Option (Nat × List Nat)
  | [], _, _ => none
  | b :: rest, shift, x =>
    if shift = 56 ∨ b < 0x80 then some (x ||| (b <<< shift), rest)
    else getU64 rest (shift + 7) (x ||| ((b &&& 0x7f) <<< shift))

/-- The string-length varint decode loop of `Header.Unmarshal` (part_002
lines 198-210 and 222-234): `uint32` accumulation, hence the `% 2^32`. -/
def getU32 : List Nat → Nat → Nat → Option (Nat × List Nat)
  | [], _, _ => none
  | b :: rest, shift, x =>
    if b < 0x80 then some ((x ||| (b <<< shift)) % 2 ^ 32, rest)
    else getU32 rest (shift + 7) ((x ||| ((b &&& 0x7f) <<< shift)) % 2 ^ 32)

/-- The `SeqID` section of `Header.Unmarshal` (part_002 lines 167-195),
given the current key byte and the remaining data; returns the updated
header, the next key byte and the data after it. -/
def phaseSeq (o : Header) (header : Nat) (rest : List Nat) :
    Except ColErr (Header × Nat × List Nat) :=
  if header = 0 then
    match getU64 rest 0 0 with
    | none => Except.error ColErr.eof
    | some (x, r) =>
      match r with
      | [] => Except.error ColErr.eof
      | h2 :: r2 => Except.ok ({ o with seqID := x }, h2, r2)
  else if header = 0x80 then
    match rest with
    | b0 :: b1 :: b2 :: b3 :: b4 :: b5 :: b6 :: b7 :: h2 :: r2 =>
      Except.ok ({ o with
        seqID := b0 <<< 56 ||| b1 <<< 48 ||| b2 <<< 40 ||| b3 <<< 32 ||| b4 <<< 24
          ||| b5 <<< 16 ||| b6 <<< 8 ||| b7 }, h2, r2)
    | _ => Except.error ColErr.eof
  else Except.ok (o, header, rest)

/-- A string section of `Header.Unmarshal` (part_002 lines 197-219 and
221-243): on the matching key byte, decode the length `n`, fail with `io.EOF`
when fewer than `n+1` bytes remain (`to >= len(data)`), else store the `n`
content bytes and step past them to the next key byte. -/
def phaseStr (set : Header → List Nat → Header) (tag : Nat) (o : Header) (header : Nat)
    (rest : List Nat) : Except ColErr (Header × Nat × List Nat) :=
  if header = tag then
    match getU32 rest 0 0 with
    | none => Except.error ColErr.eof
    | some (n, r) =>
      match r.drop n with
      | [] => Except.error ColErr.eof
      | h2 :: r2 => Except.ok (set o (r.take n), h2, r2)
  else Except.ok (o, header, rest)

/-- The body of `Header.Unmarshal` below the size guard (part_002 lines
161-248): read the first key byte, run the three sections (an error return in
any section propagates, via `Except.bind`, exactly like the Go early
returns), then require the terminator `0x7f`, returning the number of bytes
consumed (`ColferError` reports the offending byte index otherwise). -/
def unmarshalCore (o : Header) (data : List Nat) : Except ColErr (Header × Nat) :=
  match data with
  | [] => Except.error ColErr.eof
  | header :: rest =>
    Except.bind (phaseSeq o header rest) fun s1 =>
      Except.bind (phaseStr (fun o2 s => { o2 with method := s }) 1 s1.1 s1.2.1 s1.2.2) fun s2 =>
        Except.bind (phaseStr (fun o2 s => { o2 with error := s }) 2 s2.1 s2.2.1 s2.2.2) fun s3 =>
          if s3.2.1 = 0x7f then Except.ok (s3.1, data.length - s3.2.2.length)
          else Except.error (ColErr.badHeader (data.length - s3.2.2.length - 1))

/-- `Header.Unmarshal` (part_002 lines 152-249): oversized input is decoded
from its `ColferSizeMax`-byte prefix, turning `io.EOF` into `ColferMax`. -/
def unmarshal (o : Header) (data : List Nat) : Except ColErr (Header × Nat) :=
  if colferSizeMax < data.length then
    match unmarshalCore o (data.take colferSizeMax) with
    | Except.error ColErr.eof => Except.error ColErr.max
    | r => r
  else unmarshalCore o data

/-- `Header.UnmarshalBinary` (part_002 lines 253-262): `Unmarshal` must
consume the whole input, else `ColferTail`. -/
def unmarshalBinary (o : Header) (data : List Nat) : Except ColErr Header :=
  match unmarshal o data with
  | Except.error e => Except.error e
  | Except.ok (o2, i) => if i = data.length then Except.ok o2 else Except.error (ColErr.tail i)

/-- `MarshalTo` emits exactly one byte more than `MarshalLen`'s loop counts
for a varint field. -/
lemma putVarint_length (x : Nat) : (putVarint x).length = 1 + varintTailLen x := by
  induction x using Nat.strong_induction_on with
  | _ x ih =>
    rw [putVarint, varintTailLen]
    by_cases h : 0x80 ≤ x
    · have hlt : x >>> 7 < x := by
        simp only [Nat.shiftRight_eq_div_pow]
        exact Nat.div_lt_self (by omega) (by norm_num)
      simp [h, ih (x >>> 7) hlt]
      omega
    · simp [h]

/-- `MarshalTo` writes exactly the number of bytes `MarshalLen` counts. -/
lemma marshalTo_length (o : Header) : (marshalTo o).length = marshalLenN o := by
  rw [marshalTo, marshalSeq, marshalLenN, marshalField, marshalField]
  by_cases h49 : (562949953421312 : Nat) ≤ o.seqID
  · by_cases hm : o.method.length ≠ 0 <;> by_cases he : o.error.length ≠ 0 <;>
      simp [h49, hm, he, putVarint_length] <;> omega
  · by_cases h0 : o.seqID ≠ 0 <;> by_cases hm : o.method.length ≠ 0 <;>
      by_cases he : o.error.length ≠ 0 <;>
      simp [h49, h0, hm, he, putVarint_length] <;> omega

/-- The continuation byte `byte(x | 0x80)` is at least `0x80`. -/
lemma byteOr_ge (x : Nat) : 0x80 ≤ (x ||| 0x80) % 256 := by
  have h7 : Nat.testBit ((x ||| 0x80) % 256) 7 = true := by
    rw [show (256 : Nat) = 2 ^ 8 by norm_num, show (0x80 : Nat) = 2 ^ 7 by norm_num,
      Nat.testBit_mod_two_pow, Nat.testBit_or]
    simp only [Nat.testBit_two_pow_self, Bool.or_true, Bool.and_true]
    decide
  have := Nat.testBit_implies_ge h7
  omega

/-- Masking the continuation byte with `0x7f` recovers the low seven bits. -/
lemma byteOr_and (x : Nat) : ((x ||| 0x80) % 256) &&& 0x7f = x % 0x80 := by
  apply Nat.eq_of_testBit_eq
  intro i
  rw [show (0x7f : Nat) = 2 ^ 7 - 1 by norm_num, Nat.and_pow_two_sub_one_eq_mod,
    show (256 : Nat) = 2 ^ 8 by norm_num, show (0x80 : Nat) = 2 ^ 7 by norm_num]
  simp only [Nat.testBit_mod_two_pow, Nat.testBit_or, Nat.testBit_two_pow]
  by_cases h : i < 7
  · have h8 : i < 8 := by omega
    have hne : ¬ (7 = i) := by omega
    simp [h, h8, hne]
  · simp [h]

/-- Bit-splitting a shifted value into its low seven bits and the rest:
the two contributions that one varint decode iteration ORs in. -/
lemma split7 (acc x shift : Nat) :
    acc ||| ((x % 0x80) <<< shift) ||| ((x >>> 7) <<< (shift + 7)) = acc ||| (x <<< shift) := by
  apply Nat.eq_of_testBit_eq
  intro i
  rw [show (0x80 : Nat) = 2 ^ 7 by norm_num]
  simp only [Nat.testBit_or, Nat.testBit_shiftLeft, Nat.testBit_shiftRight,
    Nat.testBit_mod_two_pow, ge_iff_le]
  by_cases h1 : shift + 7 ≤ i
  · have h2 : shift ≤ i := by omega
    have h3 : ¬ (i - shift < 7) := by omega
    have e1 : 7 + (i - (shift + 7)) = i - shift := by omega
    simp [h1, h2, h3, e1]
  · by_cases h2 : shift ≤ i
    · have h3 : i - shift < 7 := by omega
      simp [h1, h2, h3]
    · simp [h1, h2]

/-- The `uint64` varint decode loop inverts the varint encode loop for any
value whose shifted contribution stays below `2^56` (so the 9-byte stop at
`shift == 56` is never taken early). -/
lemma getU64_putVarint (x : Nat) : ∀ (shift acc : Nat) (rest : List Nat),
    x <<< shift < 2 ^ 56 →
    getU64 (putVarint x ++ rest) shift acc = some (acc ||| (x <<< shift), rest) := by
  induction x using Nat.strong_induction_on with
  | _ x ih =>
    intro shift acc rest hx
    rw [putVarint]
    by_cases h : 0x80 ≤ x
    · have hlt : x >>> 7 < x := by
        simp only [Nat.shiftRight_eq_div_pow]
        exact Nat.div_lt_self (by omega) (by norm_num)
      rw [dif_pos h, List.cons_append, getU64]
      have hb : ¬ ((x ||| 0x80) % 256 < 0x80) := by
        have := byteOr_ge x; omega
      have hge : 2 ^ (shift + 7) ≤ x <<< shift := by
        rw [Nat.shiftLeft_eq]
        calc 2 ^ (shift + 7) = 2 ^ 7 * 2 ^ shift := by ring
          _ ≤ x * 2 ^ shift := Nat.mul_le_mul_right _ (by omega)
      have hshift : ¬ (shift = 56) := by
        intro hs
        subst hs
        have := lt_of_le_of_lt hge hx
        norm_num at this
      rw [if_neg (not_or.mpr ⟨hshift, hb⟩), byteOr_and]
      have hx2 : (x >>> 7) <<< (shift + 7) < 2 ^ 56 := by
        refine lt_of_le_of_lt ?_ hx
        rw [Nat.shiftLeft_eq, Nat.shiftLeft_eq, Nat.shiftRight_eq_div_pow]
        calc x / 2 ^ 7 * 2 ^ (shift + 7) = x / 2 ^ 7 * 2 ^ 7 * 2 ^ shift := by ring
          _ ≤ x * 2 ^ shift := Nat.mul_le_mul_right _ (Nat.div_mul_le_self x (2 ^ 7))
      rw [ih (x >>> 7) hlt (shift + 7) (acc ||| ((x % 0x80) <<< shift)) rest hx2, split7]
    · rw [dif_neg h, List.cons_append, getU64, if_pos (Or.inr (by omega)), List.nil_append]

/-- The `uint32` varint decode loop inverts the varint encode loop whenever
the value and the accumulator fit in 32 bits, so the `% 2^32` truncations are
inert. -/
lemma getU32_putVarint (x : Nat) : ∀ (shift acc : Nat) (rest : List Nat),
    x <<< shift < 2 ^ 32 → acc < 2 ^ 32 →
    getU32 (putVarint x ++ rest) shift acc = some (acc ||| (x <<< shift), rest) := by
  induction x using Nat.strong_induction_on with
  | _ x ih =>
    intro shift acc rest hx hacc
    rw [putVarint]
    by_cases h : 0x80 ≤ x
    · have hlt : x >>> 7 < x := by
        simp only [Nat.shiftRight_eq_div_pow]
        exact Nat.div_lt_self (by omega) (by norm_num)
      rw [dif_pos h, List.cons_append, getU32]
      have hb : ¬ ((x ||| 0x80) % 256 < 0x80) := by
        have := byteOr_ge x; omega
      rw [if_neg hb, byteOr_and]
      have hlow : (x % 0x80) <<< shift < 2 ^ 32 := by
        refine lt_of_le_of_lt ?_ hx
        rw [Nat.shiftLeft_eq, Nat.shiftLeft_eq]
        exact Nat.mul_le_mul_right _ (Nat.mod_le x 0x80)
      have hmod : (acc ||| ((x % 0x80) <<< shift)) % 2 ^ 32 = acc ||| ((x % 0x80) <<< shift) :=
        Nat.mod_eq_of_lt (Nat.or_lt_two_pow hacc hlow)
      rw [hmod]
      have hx2 : (x >>> 7) <<< (shift + 7) < 2 ^ 32 := by
        refine lt_of_le_of_lt ?_ hx
        rw [Nat.shiftLeft_eq, Nat.shiftLeft_eq, Nat.shiftRight_eq_div_pow]
        calc x / 2 ^ 7 * 2 ^ (shift + 7) = x / 2 ^ 7 * 2 ^ 7 * 2 ^ shift := by ring
          _ ≤ x * 2 ^ shift := Nat.mul_le_mul_right _ (Nat.div_mul_le_self x (2 ^ 7))
      rw [ih (x >>> 7) hlt (shift + 7) (acc ||| ((x % 0x80) <<< shift)) rest hx2
        (Nat.or_lt_two_pow hacc hlow), split7]
    · rw [dif_neg h, List.cons_append, getU32, if_pos (by omega), List.nil_append]
      rw [Nat.mod_eq_of_lt (Nat.or_lt_two_pow hacc hx)]

/-- Splitting off one big-endian byte: the bits of `x` from position `k` up
are the bits from `k+8` up together with the byte at positions `k..k+7`. -/
lemma slice_or (x k : Nat) :
    (x >>> (k + 8)) <<< (k + 8) ||| ((x >>> k) % 256) <<< k = (x >>> k) <<< k := by
  apply Nat.eq_of_testBit_eq
  intro i
  rw [show (256 : Nat) = 2 ^ 8 by norm_num]
  simp only [Nat.testBit_or, Nat.testBit_shiftLeft, Nat.testBit_shiftRight,
    Nat.testBit_mod_two_pow, ge_iff_le]
  by_cases h1 : k + 8 ≤ i
  · have h2 : k ≤ i := by omega
    have h3 : ¬ (i - k < 8) := by omega
    have e1 : k + 8 + (i - (k + 8)) = k + (i - k) := by omega
    simp [h1, h2, h3, e1]
  · by_cases h2 : k ≤ i
    · have h3 : i - k < 8 := by omega
      simp [h1, h2, h3]
    · simp [h1, h2]

/-- The eight big-endian bytes written by `MarshalTo` for a large `SeqID`
recombine, in the OR order used by `Unmarshal`, to the original value. -/
lemma recombine_bytes (x : Nat) (h64 : x < 2 ^ 64) :
    ((x >>> 56) % 256) <<< 56 ||| ((x >>> 48) % 256) <<< 48 ||| ((x >>> 40) % 256) <<< 40
      ||| ((x >>> 32) % 256) <<< 32 ||| ((x >>> 24) % 256) <<< 24
      ||| ((x >>> 16) % 256) <<< 16 ||| ((x >>> 8) % 256) <<< 8 ||| x % 256 = x := by
  have h0 : x >>> 64 = 0 := by
    rw [Nat.shiftRight_eq_div_pow]
    exact Nat.div_eq_of_lt h64
  have s56 := slice_or x 56
  have s48 := slice_or x 48
  have s40 := slice_or x 40
  have s32 := slice_or x 32
  have s24 := slice_or x 24
  have s16 := slice_or x 16
  have s8 := slice_or x 8
  have s0 := slice_or x 0
  norm_num [h0] at s56 s48 s40 s32 s24 s16 s8 s0
  rw [s56, s48, s40, s32, s24, s16, s8, s0]

/-- With no `SeqID` section present, the decoder passes a method key, error
key or terminator byte straight through. -/
lemma phaseSeq_skip (o : Header) (h2 : Nat) (r2 : List Nat)
    (hh : h2 = 1 ∨ h2 = 2 ∨ h2 = 0x7f) :
    phaseSeq o h2 r2 = Except.ok (o, h2, r2) := by
  rcases hh with rfl | rfl | rfl <;> rfl

/-- Decoding a varint-encoded `SeqID` section (values below `2^49`). -/
lemma phaseSeq_small (o : Header) (x h2 : Nat) (r2 : List Nat) (h49 : x < 2 ^ 49) :
    phaseSeq o 0 (putVarint x ++ (h2 :: r2)) = Except.ok ({ o with seqID := x }, h2, r2) := by
  delta phaseSeq
  rw [if_pos rfl, getU64_putVarint x 0 0 (h2 :: r2) (by rw [Nat.shiftLeft_zero]; omega)]
  simp

/-- Decoding a big-endian `SeqID` section (values from `2^49` up). -/
lemma phaseSeq_big (o : Header) (x h2 : Nat) (r2 : List Nat) (h64 : x < 2 ^ 64) :
    phaseSeq o 0x80 ((x >>> 56) % 256 :: (x >>> 48) % 256 :: (x >>> 40) % 256
        :: (x >>> 32) % 256 :: (x >>> 24) % 256 :: (x >>> 16) % 256 :: (x >>> 8) % 256
        :: x % 256 :: h2 :: r2) =
      Except.ok ({ o with seqID := x }, h2, r2) := by
  delta phaseSeq
  rw [if_neg (by norm_num), if_pos rfl]
  have hrec := recombine_bytes x h64
  simp [hrec]

/-- A string section whose key byte does not match passes through. -/
lemma phaseStr_skip (set : Header → List Nat → Header) (tag : Nat) (o : Header)
    (h2 : Nat) (r2 : List Nat) (hh : ¬ (h2 = tag)) :
    phaseStr set tag o h2 r2 = Except.ok (o, h2, r2) := by
  delta phaseStr
  rw [if_neg hh]

/-- Decoding a marshalled string section: length varint, then the bytes. -/
lemma phaseStr_go (set : Header → List Nat → Header) (tag : Nat) (o : Header)
    (s : List Nat) (h2 : Nat) (r2 : List Nat) (hlen : s.length < 2 ^ 32) :
    phaseStr set tag o tag (putVarint s.length ++ (s ++ h2 :: r2)) =
      Except.ok (set o s, h2, r2) := by
  delta phaseStr
  rw [if_pos rfl,
    getU32_putVarint s.length 0 0 (s ++ h2 :: r2) (by rw [Nat.shiftLeft_zero]; exact hlen)
      (by norm_num)]
  simp only [Nat.shiftLeft_zero, Nat.zero_or]
  rw [List.drop_left]
  simp [List.take_left]

/-- `Except.bind` of a success applies the continuation. -/
lemma ebind_ok {α β : Type} (a : α) (f : α → Except ColErr β) :
    Except.bind (Except.ok a) f = f a := rfl

/-- Decoding the exact output of `MarshalTo` from a zero header succeeds,
reproduces the marshalled header and consumes the whole buffer. -/
lemma unmarshalCore_marshalTo (x : Nat) (m e : List Nat)
    (h64 : x < 2 ^ 64) (hm32 : m.length < 2 ^ 32) (he32 : e.length < 2 ^ 32) :
    unmarshalCore ⟨0, [], []⟩ (marshalTo ⟨x, m, e⟩) =
      Except.ok (⟨x, m, e⟩, (marshalTo ⟨x, m, e⟩).length) := by
  have hmfe : ∀ t : Nat, marshalField t ([] : List Nat) = [] := by
    intro t; rw [marshalField]; simp
  by_cases h49 : (562949953421312 : Nat) ≤ x
  case pos =>
    have hseqB : marshalSeq x = 0x80 :: [(x >>> 56) % 256, (x >>> 48) % 256,
        (x >>> 40) % 256, (x >>> 32) % 256, (x >>> 24) % 256, (x >>> 16) % 256,
        (x >>> 8) % 256, x % 256] := by
      rw [marshalSeq,
        if_pos (by rw [show (1 <<< 49 : Nat) = 562949953421312 from by decide]; omega)]
    by_cases hm0 : m = []
    · subst hm0
      by_cases he0 : e = []
      · subst he0
        simp only [marshalTo]
        rw [hseqB, hmfe, hmfe]
        simp only [List.cons_append, List.append_assoc, List.nil_append]
        rw [unmarshalCore, phaseSeq_big _ x _ _ h64]
        simp only [ebind_ok]
        rw [phaseStr_skip _ _ _ _ _ (by decide)]
        simp only [ebind_ok]
        rw [phaseStr_skip _ _ _ _ _ (by decide)]
        simp [ebind_ok]
      · have hef : marshalField 2 e = 2 :: (putVarint e.length ++ e) := by
          rw [marshalField, if_pos (by simpa using he0)]
        simp only [marshalTo]
        rw [hseqB, hmfe, hef]
        simp only [List.cons_append, List.append_assoc, List.nil_append]
        rw [unmarshalCore, phaseSeq_big _ x _ _ h64]
        simp only [ebind_ok]
        rw [phaseStr_skip _ _ _ _ _ (by decide)]
        simp only [ebind_ok]
        rw [phaseStr_go _ _ _ e _ _ he32]
        simp [ebind_ok]
    · have hmf : marshalField 1 m = 1 :: (putVarint m.length ++ m) := by
        rw [marshalField, if_pos (by simpa using hm0)]
      by_cases he0 : e = []
      · subst he0
        simp only [marshalTo]
        rw [hseqB, hmf, hmfe]
        simp only [List.cons_append, List.append_assoc, List.nil_append]
        rw [unmarshalCore, phaseSeq_big _ x _ _ h64]
        simp only [ebind_ok]
        rw [phaseStr_go _ _ _ m _ _ hm32]
        simp only [ebind_ok]
        rw [phaseStr_skip _ _ _ _ _ (by decide)]
        simp [ebind_ok]
      · have hef : marshalField 2 e = 2 :: (putVarint e.length ++ e) := by
          rw [marshalField, if_pos (by simpa using he0)]
        simp only [marshalTo]
        rw [hseqB, hmf, hef]
        simp only [List.cons_append, List.append_assoc, List.nil_append]
        rw [unmarshalCore, phaseSeq_big _ x _ _ h64]
        simp only [ebind_ok]
        rw [phaseStr_go _ _ _ m _ _ hm32]
        simp only [ebind_ok]
        rw [phaseStr_go _ _ _ e _ _ he32]
        simp [ebind_ok]
  case neg =>
    have h49lt : x < 2 ^ 49 := by
      rw [show (2 ^ 49 : Nat) = 562949953421312 from by norm_num]; omega
    by_cases hx0 : x = 0
    · subst hx0
      have hseq0 : marshalSeq 0 = [] := by rw [marshalSeq]; rfl
      by_cases hm0 : m = []
      · subst hm0
        by_cases he0 : e = []
        · subst he0
          simp only [marshalTo]
          rw [hseq0, hmfe, hmfe]
          simp only [List.nil_append]
          rw [unmarshalCore, phaseSeq_skip _ _ _ (by decide)]
          simp only [ebind_ok]
          rw [phaseStr_skip _ _ _ _ _ (by decide)]
          simp only [ebind_ok]
          rw [phaseStr_skip _ _ _ _ _ (by decide)]
          simp [ebind_ok]
        · have hef : marshalField 2 e = 2 :: (putVarint e.length ++ e) := by
            rw [marshalField, if_pos (by simpa using he0)]
          simp only [marshalTo]
          rw [hseq0, hmfe, hef]
          simp only [List.cons_append, List.append_assoc, List.nil_append]
          rw [unmarshalCore, phaseSeq_skip _ _ _ (by decide)]
          simp only [ebind_ok]
          rw [phaseStr_skip _ _ _ _ _ (by decide)]
          simp only [ebind_ok]
          rw [phaseStr_go _ _ _ e _ _ he32]
          simp [ebind_ok]
      · have hmf : marshalField 1 m = 1 :: (putVarint m.length ++ m) := by
          rw [marshalField, if_pos (by simpa using hm0)]
        by_cases he0 : e = []
        · subst he0
          simp only [marshalTo]
          rw [hseq0, hmf, hmfe]
          simp only [List.cons_append, List.append_assoc, List.nil_append]
          rw [unmarshalCore, phaseSeq_skip _ _ _ (by decide)]
          simp only [ebind_ok]
          rw [phaseStr_go _ _ _ m _ _ hm32]
          simp only [ebind_ok]
          rw [phaseStr_skip _ _ _ _ _ (by decide)]
          simp [ebind_ok]
        · have hef : marshalField 2 e = 2 :: (putVarint e.length ++ e) := by
            rw [marshalField, if_pos (by simpa using he0)]
          simp only [marshalTo]
          rw [hseq0, hmf, hef]
          simp only [List.cons_append, List.append_assoc, List.nil_append]
          rw [unmarshalCore, phaseSeq_skip _ _ _ (by decide)]
          simp only [ebind_ok]
          rw [phaseStr_go _ _ _ m _ _ hm32]
          simp only [ebind_ok]
          rw [phaseStr_go _ _ _ e _ _ he32]
          simp [ebind_ok]
    · have hseqS : marshalSeq x = 0 :: putVarint x := by
        rw [marshalSeq,
          if_neg (by rw [show (1 <<< 49 : Nat) = 562949953421312 from by decide]; omega),
          if_pos hx0]
      by_cases hm0 : m = []
      · subst hm0
        by_cases he0 : e = []
        · subst he0
          simp only [marshalTo]
          rw [hseqS, hmfe, hmfe]
          simp only [List.cons_append, List.append_assoc, List.nil_append]
          rw [unmarshalCore, phaseSeq_small _ x _ _ h49lt]
          simp only [ebind_ok]
          rw [phaseStr_skip _ _ _ _ _ (by decide)]
          simp only [ebind_ok]
          rw [phaseStr_skip _ _ _ _ _ (by decide)]
          simp [ebind_ok]
        · have hef : marshalField 2 e = 2 :: (putVarint e.length ++ e) := by
            rw [marshalField, if_pos (by simpa using he0)]
          simp only [marshalTo]
          rw [hseqS, hmfe, hef]
          simp only [List.cons_append, List.append_assoc, List.nil_append]
          rw [unmarshalCore, phaseSeq_small _ x _ _ h49lt]
          simp only [ebind_ok]
          rw [phaseStr_skip _ _ _ _ _ (by decide)]
          simp only [ebind_ok]
          rw [phaseStr_go _ _ _ e _ _ he32]
          simp [ebind_ok]
      · have hmf : marshalField 1 m = 1 :: (putVarint m.length ++ m) := by
          rw [marshalField, if_pos (by simpa using hm0)]
        by_cases he0 : e = []
        · subst he0
          simp only [marshalTo]
          rw [hseqS, hmf, hmfe]
          simp only [List.cons_append, List.append_assoc, List.nil_append]
          rw [unmarshalCore, phaseSeq_small _ x _ _ h49lt]
          simp only [ebind_ok]
          rw [phaseStr_go _ _ _ m _ _ hm32]
          simp only [ebind_ok]
          rw [phaseStr_skip _ _ _ _ _ (by decide)]
          simp [ebind_ok]
        · have hef : marshalField 2 e = 2 :: (putVarint e.length ++ e) := by
            rw [marshalField, if_pos (by simpa using he0)]
          simp only [marshalTo]
          rw [hseqS, hmf, hef]
          simp only [List.cons_append, List.append_assoc, List.nil_append]
          rw [unmarshalCore, phaseSeq_small _ x _ _ h49lt]
          simp only [ebind_ok]
          rw [phaseStr_go _ _ _ m _ _ hm32]
          simp only [ebind_ok]
          rw [phaseStr_go _ _ _ e _ _ he32]
          simp [ebind_ok]

/-- C9: for every colfer `Header` (with `SeqID` in `uint64` range) whose
`MarshalLen` does not exceed `ColferSizeMax`, `MarshalBinary` succeeds and
`UnmarshalBinary` of its output into a zero-valued `Header` succeeds and
returns the original header: marshal followed by unmarshal is the
identity. -/
theorem c9_header_marshal_roundtrip (h : Header) (h64 : h.seqID < 2 ^ 64)
    (hlen : marshalLenN h ≤ colferSizeMax) :
    marshalBinary h = Except.ok (marshalTo h) ∧
    unmarshalBinary ⟨0, [], []⟩ (marshalTo h) = Except.ok h := by
  obtain ⟨x, m, e⟩ := h
  have hmax : marshalLenN ⟨x, m, e⟩ ≤ 16777216 := by
    rw [colferSizeMax] at hlen; omega
  have hm32 : m.length < 2 ^ 32 := by
    have hle : m.length ≤ marshalLenN ⟨x, m, e⟩ := by
      simp only [marshalLenN]
      split_ifs <;> omega
    have : (16777216 : Nat) < 2 ^ 32 := by norm_num
    omega
  have he32 : e.length < 2 ^ 32 := by
    have hle : e.length ≤ marshalLenN ⟨x, m, e⟩ := by
      simp only [marshalLenN]
      split_ifs <;> omega
    have : (16777216 : Nat) < 2 ^ 32 := by norm_num
    omega
  constructor
  · rw [marshalBinary, if_neg (by rw [colferSizeMax]; omega)]
  · have hnotrunc : ¬ (colferSizeMax < (marshalTo ⟨x, m, e⟩).length) := by
      rw [marshalTo_length, colferSizeMax]
      omega
    delta unmarshalBinary unmarshal
    rw [if_neg hnotrunc, unmarshalCore_marshalTo x m e h64 hm32 he32]
    simp

/-- Witness for C9 at the header `{SeqID 300, Method "ab", Error "0"}`. -/
theorem c9_witness :
    marshalBinary ⟨300, [97, 98], [48]⟩ = Except.ok (marshalTo ⟨300, [97, 98], [48]⟩) ∧
    unmarshalBinary ⟨0, [], []⟩ (marshalTo ⟨300, [97, 98], [48]⟩) =
      Except.ok ⟨300, [97, 98], [48]⟩ :=
  c9_header_marshal_roundtrip ⟨300, [97, 98], [48]⟩ (by norm_num)
    (by
      have hv2 : varintTailLen 2 = 0 := by rw [varintTailLen]; norm_num
      have hv1 : varintTailLen 1 = 0 := by rw [varintTailLen]; norm_num
      have hv : varintTailLen 300 = 1 := by
        rw [varintTailLen, dif_pos (by norm_num), show (300 : Nat) >>> 7 = 2 from rfl, hv2]
      norm_num [marshalLenN, hv, hv2, hv1, colferSizeMax, Nat.shiftLeft_eq])

end Myrpc
